import Mathlib

/-!
Verification of the zipcity autocomplete engine.

This file gives a shallow embedding of the autocomplete matching code of the
zipcity Cloudflare worker and proves or refutes the specified properties.

Two generations of the engine live in the repository and both are embedded:

* `performAutocompleteOptimized` — the current engine (src/src/index.js,
  lines 722-857), used for the Mexico R2 data path; chunked scan with a
  50,000-item ceiling, a shared `seenItems` dedup set, and a two-tier
  (query-prefix first, then alphabetical) final sort.
* `performAutocomplete` — the legacy R2 engine kept in the repository
  (`matchesWithWordBoundary` city matching, cap 50, postal branch without
  dedup, purely alphabetical final sort).

Strings are modelled with Lean `String`/`List Char`; the JS string primitives
used by the code (`toLowerCase`, `trim`, `startsWith`, `includes`,
`split` on whitespace, `split` on a comma, the leading-digit regex test, and
`parseInt`) are modelled as the `js*`/`chars*` functions below, restricted to
the ASCII behaviour the data exercises.  `localeCompare` (used only inside
sort comparators) is modelled as case-insensitive lexicographic comparison of
the two strings, ties comparing equal.  JS `Array.prototype.sort` is stable
(ES2019); every comparator in this code is induced by a total preorder, so
any stable sort computes the same list, and the embedding uses Mathlib's
(stable) `List.insertionSort`.
-/

/-- JS `s.toLowerCase()` restricted to ASCII: lowercase every character. -/
def jsToLower (s : String) : String :=
  String.mk (s.data.map Char.toLower)

/-- JS `s.trim()`: drop leading and trailing whitespace. -/
def jsTrim (s : String) : String :=
  String.mk (((s.data.dropWhile Char.isWhitespace).reverse.dropWhile
    Char.isWhitespace).reverse)

/-- Character-list core of JS `s.startsWith(p)`. -/
def charsStartsWith : List Char → List Char → Bool
  | _, [] => true
  | [], _ :: _ => false
  | a :: s, b :: p => a == b && charsStartsWith s p

/-- Character-list core of JS `s.includes(sub)`: some suffix starts with `sub`. -/
def charsContains : List Char → List Char → Bool
  | [], sub => charsStartsWith [] sub
  | s@(_ :: t), sub => charsStartsWith s sub || charsContains t sub

/-- JS `s.startsWith(p)`. -/
def jsStartsWith (s p : String) : Bool :=
  charsStartsWith s.data p.data

/-- JS `s.includes(sub)`. -/
def jsIncludes (s sub : String) : Bool :=
  charsContains s.data sub.data

/-- The JS test of the regex "leading digits" against `s`: true iff the first
character of the raw string is an ASCII digit.  All engines apply it to the
*untrimmed* query (`const isNumericQuery` in the source). -/
def jsTestDigitStart (s : String) : Bool :=
  match s.data with
  | [] => false
  | c :: _ => c.isDigit

/-- ASCII letter test, for the Canadian postal-code regex. -/
def isAsciiLetter (c : Char) : Bool :=
  ('a' ≤ c && c ≤ 'z') || ('A' ≤ c && c ≤ 'Z')

/-- The Canadian postal-code classifier of `performCAAutocompleteQuery`:
the regex letter-digit-optional-letter anchored at the start, or the
leading-digits regex, both applied to the raw query. -/
def caIsPostalCodeQuery (q : String) : Bool :=
  (match q.data with
   | a :: b :: _ => isAsciiLetter a && b.isDigit
   | _ => false) || jsTestDigitStart q

/-- Helper for `jsSplitChar`: split at every occurrence of `sep`. -/
def splitCharGo (sep : Char) : List Char → List Char → List String
  | [], acc => [String.mk acc.reverse]
  | c :: rest, acc =>
    if c = sep then String.mk acc.reverse :: splitCharGo sep rest []
    else splitCharGo sep rest (c :: acc)

/-- JS `s.split(sep)` for a single-character separator (used with a comma). -/
def jsSplitChar (sep : Char) (s : String) : List String :=
  splitCharGo sep s.data []

/-- A list shrinks or stays equal under `dropWhile`. -/
theorem dropWhile_length_le (p : Char → Bool) :
    ∀ l : List Char, (l.dropWhile p).length ≤ l.length
  | [] => Nat.le_refl _
  | c :: t => by
    simp only [List.dropWhile]
    split
    · exact Nat.le_succ_of_le (dropWhile_length_le p t)
    · exact Nat.le_refl _

/-- Helper for `splitWs`: separators are maximal whitespace runs, and the
(sub)strings between consecutive separators are returned, including the empty
pieces before a leading run and after a trailing run — JS `split` on the
one-or-more-whitespace regex.  The boolean state records whether the scan is
currently inside a separator run (whose preceding piece has been emitted). -/
def splitWsGo : Bool → List Char → List Char → List String
  | false, [], acc => [String.mk acc.reverse]
  | true, [], _ => [""]
  | false, c :: rest, acc =>
    if c.isWhitespace then String.mk acc.reverse :: splitWsGo true rest []
    else splitWsGo false rest (c :: acc)
  | true, c :: rest, acc =>
    if c.isWhitespace then splitWsGo true rest acc
    else splitWsGo false rest (c :: acc)

/-- JS `s.split` on the one-or-more-whitespace regex. -/
def splitWs (s : String) : List String :=
  splitWsGo false s.data []

/-- Helper for `matchesWithWordBoundary`: the indexed loop of the source,
walking query words and name words in lockstep.  Running past the end of the
name words returns false; otherwise each name word must start with the query
word at the same position. -/
def wordBoundaryGo : List String → List String → Bool
  | [], _ => true
  | _ :: _, [] => false
  | q :: qs, n :: ns => jsStartsWith n q && wordBoundaryGo qs ns

/-- `matchesWithWordBoundary(fullName, query)` from the legacy worker: split
both strings into whitespace-delimited words; every query word must be a
prefix of the name word at the same position, and there must be no more query
words than name words. -/
def matchesWithWordBoundary (fullName query : String) : Bool :=
  wordBoundaryGo (splitWs query) (splitWs fullName)

/-- Digit-prefix parser backing `jsParseInt`. -/
def parseDigits (cs : List Char) : Option Nat :=
  let ds := cs.takeWhile Char.isDigit
  if ds.isEmpty then none
  else some (ds.foldl (fun acc c => acc * 10 + (c.toNat - '0'.toNat)) 0)

/-- JS `parseInt(x)` for `x` either absent (`null`, which stringifies without
a digit prefix, hence NaN) or a string: skip leading whitespace, optional
sign, then the longest digit prefix; `none` models NaN.  The legacy `0x` hex
form is not modelled (no caller passes one). -/
def jsParseInt : Option String → Option Int
  | none => none
  | some str =>
    match str.data.dropWhile Char.isWhitespace with
    | '-' :: rest => (parseDigits rest).map (fun n => -(n : Int))
    | '+' :: rest => (parseDigits rest).map (fun n => (n : Int))
    | cs => (parseDigits cs).map (fun n => (n : Int))

/-- The limit computation of every autocomplete handler:
`parseInt(url.searchParams.get('limit')) || 10` — NaN and 0 are falsy and
fall back to the default 10. -/
def handlerLimit (p : Option String) : Int :=
  match jsParseInt p with
  | none => 10
  | some 0 => 10
  | some n => n

/-- The handler's `cappedLimit = Math.min(limit, 25)`. -/
def handlerCappedLimit (p : Option String) : Int :=
  min (handlerLimit p) 25

/-- Case-insensitive lexicographic less-or-equal on character lists: the model
of `a.localeCompare(b) <= 0` for the sort comparators. -/
def charsLe : List Char → List Char → Bool
  | [], _ => true
  | _ :: _, [] => false
  | a :: as, b :: bs => if a < b then true else if b < a then false else charsLe as bs

/-- Model of `a.localeCompare(b) <= 0` (default locale, ASCII data):
case-insensitive lexicographic comparison. -/
def jsLocaleCompareLe (a b : String) : Bool :=
  charsLe (jsToLower a).data (jsToLower b).data

/-- One normalized place record, as the JSON rows of the R2 data files:
`zipcode`, `place`, `state_code`, and (Mexico) `state`.  Missing fields are
the empty string (the code reads them as `item.f || ''`, which is the
identity on strings with that convention). -/
structure PlaceRecord where
  zipcode : String
  place : String
  state_code : String
  state : String
  deriving DecidableEq, Repr

/-- One autocomplete result object.  The JS object shapes differ per branch
(zip results have no `state_code` field, Mexico state results have no
`city`/`zipcode`); the embedding uses a single structure with the unused
fields set to the empty string. -/
structure MatchResult where
  type : String
  display : String
  value : String
  city : String
  state : String
  zipcode : String
  state_code : String
  deriving DecidableEq, Repr

/-- The zip/postal result object pushed by `performAutocompleteOptimized`. -/
def mkZipResultOptimized (isCanada isMexico : Bool) (item : PlaceRecord) : MatchResult :=
  { type := "zipcode"
    display :=
      if isMexico then item.zipcode ++ " - " ++ item.place ++ ", " ++ item.state
      else if isCanada then item.zipcode ++ " - " ++ item.place ++ ", " ++ item.state_code
      else item.zipcode ++ " - " ++ item.place ++ ", " ++ item.state_code
    value := item.zipcode
    city := item.place
    state := if isMexico then item.state else item.state_code
    zipcode := item.zipcode
    state_code := "" }

/-- The Mexico state result object pushed by `performAutocompleteOptimized`. -/
def mkStateResult (item : PlaceRecord) : MatchResult :=
  { type := "state"
    display := item.state
    value := item.state
    city := ""
    state := item.state
    zipcode := ""
    state_code := item.state_code }

/-- The city result object pushed by both engines (identical literal in the
comma and no-comma branches). -/
def mkCityResult (item : PlaceRecord) : MatchResult :=
  { type := "city"
    display := item.place ++ ", " ++ item.state_code
    value := item.place ++ ", " ++ item.state_code
    city := item.place
    state := item.state_code
    zipcode := item.zipcode
    state_code := "" }

/-- The zip/postal result object pushed by the legacy `performAutocomplete`
(the Canada and US template strings are identical in the source). -/
def mkZipResultLegacy (isCanada : Bool) (item : PlaceRecord) : MatchResult :=
  { type := "zipcode"
    display :=
      if isCanada then item.zipcode ++ " - " ++ item.place ++ ", " ++ item.state_code
      else item.zipcode ++ " - " ++ item.place ++ ", " ++ item.state_code
    value := item.zipcode
    city := item.place
    state := item.state_code
    zipcode := item.zipcode
    state_code := "" }

/-- JS `Set.prototype.has` over the string keys accumulated so far. -/
def memStr : List String → String → Bool
  | [], _ => false
  | s :: rest, x => if s = x then true else memStr rest x

/-- The dedup key for city results in both engines:
lowercased place, a comma, lowercased state code. -/
def cityKeyOf (item : PlaceRecord) : String :=
  jsToLower item.place ++ "," ++ jsToLower item.state_code

/-- The match condition of the Mexico state branch (dedup aside):
the lowercased state name contains the normalized query as a substring. -/
def mxStateMatches (ql : String) (item : PlaceRecord) : Bool :=
  jsIncludes (jsToLower item.state) ql

/-- `cityPart` of the comma destructuring in both engines: first element of
the comma split, trimmed. -/
def commaCityPart (ql : String) : String :=
  ((jsSplitChar ',' ql).map jsTrim).headD ""

/-- `statePart` of the comma destructuring in both engines: second element of
the comma split, trimmed (the empty string models an absent element, which is
falsy exactly like the empty string in the guarding conjunction). -/
def commaStatePart (ql : String) : String :=
  (((jsSplitChar ',' ql).map jsTrim).drop 1).headD ""

/-- The per-item body of the scan loop of `performAutocompleteOptimized`:
one record either contributes nothing or appends one result and its dedup key
to the `seenItems` set.  `ql` is the lowercased, trimmed query. -/
def processItemOptimized (ql : String) (isNum isCanada isMexico : Bool)
    (item : PlaceRecord) (ms : List MatchResult) (seen : List String) :
    List MatchResult × List String :=
  if isNum then
    if jsStartsWith (jsToLower item.zipcode) ql then
      if memStr seen item.zipcode then (ms, seen)
      else (ms ++ [mkZipResultOptimized isCanada isMexico item], seen ++ [item.zipcode])
    else (ms, seen)
  else if isMexico then
    if mxStateMatches ql item && !memStr seen (jsToLower item.state) then
      (ms ++ [mkStateResult item], seen ++ [jsToLower item.state])
    else (ms, seen)
  else if jsIncludes ql "," then
    if commaCityPart ql ≠ "" ∧ commaStatePart ql ≠ "" then
      if jsIncludes (jsToLower item.place) (commaCityPart ql) &&
          jsStartsWith (jsToLower item.state_code) (commaStatePart ql) &&
          !memStr seen (cityKeyOf item) then
        (ms ++ [mkCityResult item], seen ++ [cityKeyOf item])
      else (ms, seen)
    else (ms, seen)
  else
    if jsStartsWith (jsToLower item.place) ql && !memStr seen (cityKeyOf item) then
      (ms ++ [mkCityResult item], seen ++ [cityKeyOf item])
    else (ms, seen)

/-- The scan loop of `performAutocompleteOptimized`, flattened.  The source
iterates in chunks of 1000 with `chunkStart < data.length && chunkStart <
50000`, bounds each chunk by `Math.min(chunkStart + 1000, data.length,
50000)`, counts `itemsProcessed`, and breaks once `matches.length >=
maxLimit` (checked before each item) or `itemsProcessed >= 50000` (checked at
chunk ends).  Because 50000 is a multiple of the chunk size, this is exactly
a left-to-right scan of the first 50000 records that stops early when the
result list is full; the caller passes the truncated list. -/
def scanOptimized (ql : String) (isNum isCanada isMexico : Bool) (maxLimit : Nat) :
    List PlaceRecord → List MatchResult → List String → List MatchResult
  | [], ms, _ => ms
  | item :: rest, ms, seen =>
    if maxLimit ≤ ms.length then ms
    else
      scanOptimized ql isNum isCanada isMexico maxLimit rest
        (processItemOptimized ql isNum isCanada isMexico item ms seen).1
        (processItemOptimized ql isNum isCanada isMexico item ms seen).2

/-- The sort comparator of `performAutocompleteOptimized` as a boolean
less-or-equal: query-prefix matches first, then `localeCompare` order. -/
def optimizedSortLe (ql : String) (a b : MatchResult) : Bool :=
  let aE := jsStartsWith (jsToLower a.display) ql
  let bE := jsStartsWith (jsToLower b.display) ql
  if aE && !bE then true
  else if !aE && bE then false
  else jsLocaleCompareLe a.display b.display

/-- The final `matches.sort(...)` of `performAutocompleteOptimized` (stable). -/
def sortMatchesOptimized (ql : String) (ms : List MatchResult) : List MatchResult :=
  List.insertionSort (fun a b => optimizedSortLe ql a b = true) ms

/-- `performAutocompleteOptimized(data, query, limit, isCanada, isMexico)`
from src/src/index.js: normalize the query, classify by the leading-digit
test on the raw query, cap the limit at 25, reject queries shorter than 2
after normalization, scan at most the first 50000 records, and sort. -/
def performAutocompleteOptimized (data : List PlaceRecord) (query : String)
    (limit : Nat) (isCanada isMexico : Bool) : List MatchResult :=
  let queryLower := jsTrim (jsToLower query)
  let isNumericQuery := jsTestDigitStart query
  let maxLimit := min limit 25
  if queryLower.length < 2 then []
  else
    sortMatchesOptimized queryLower
      (scanOptimized queryLower isNumericQuery isCanada isMexico maxLimit
        (data.take 50000) [] [])

/-- The zip/postal scan of the legacy `performAutocomplete`: every matching
record is pushed — there is no `seenItems` check in this branch. -/
def scanLegacyZip (ql : String) (isCanada : Bool) (maxLimit : Nat) :
    List PlaceRecord → List MatchResult → List MatchResult
  | [], ms => ms
  | item :: rest, ms =>
    if maxLimit ≤ ms.length then ms
    else if jsStartsWith (jsToLower item.zipcode) ql then
      scanLegacyZip ql isCanada maxLimit rest (ms ++ [mkZipResultLegacy isCanada item])
    else scanLegacyZip ql isCanada maxLimit rest ms

/-- The common shape of the two city loops of the legacy `performAutocomplete`:
they differ only in the per-record match test `p`; a matching unseen record
pushes one city result and its `cityKeyOf` dedup key. -/
def scanLegacyCityWith (p : PlaceRecord → Bool) (maxLimit : Nat) :
    List PlaceRecord → List MatchResult → List String → List MatchResult
  | [], ms, _ => ms
  | item :: rest, ms, seen =>
    if maxLimit ≤ ms.length then ms
    else if p item && !memStr seen (cityKeyOf item) then
      scanLegacyCityWith p maxLimit rest (ms ++ [mkCityResult item])
        (seen ++ [cityKeyOf item])
    else scanLegacyCityWith p maxLimit rest ms seen

/-- The no-comma city scan of the legacy `performAutocomplete`:
word-boundary match on the city name, deduplicated by `cityKeyOf`. -/
def scanLegacyCity (ql : String) (maxLimit : Nat)
    (data : List PlaceRecord) (ms : List MatchResult) (seen : List String) :
    List MatchResult :=
  scanLegacyCityWith (fun item => matchesWithWordBoundary (jsToLower item.place) ql)
    maxLimit data ms seen

/-- The comma city+state scan of the legacy `performAutocomplete`:
word-boundary match on the city part, prefix match on the state part,
deduplicated by `cityKeyOf`. -/
def scanLegacyCityState (cityPart statePart : String) (maxLimit : Nat)
    (data : List PlaceRecord) (ms : List MatchResult) (seen : List String) :
    List MatchResult :=
  scanLegacyCityWith
    (fun item => matchesWithWordBoundary (jsToLower item.place) cityPart &&
      jsStartsWith (jsToLower item.state_code) statePart)
    maxLimit data ms seen

/-- The final `matches.sort(...)` of the legacy `performAutocomplete`:
purely alphabetical by `display` (no query-prefix tier). -/
def sortMatchesLegacy (ms : List MatchResult) : List MatchResult :=
  List.insertionSort (fun a b => jsLocaleCompareLe a.display b.display = true) ms

/-- `performAutocomplete(data, query, limit, isCanada)` from the legacy
worker version: leading-digit classification on the raw query, cap 50,
comma split for city+state, word-boundary city matching, alphabetical sort. -/
def performAutocomplete (data : List PlaceRecord) (query : String)
    (limit : Nat) (isCanada : Bool) : List MatchResult :=
  let queryLower := jsTrim (jsToLower query)
  let isNumericQuery := jsTestDigitStart query
  let maxLimit := min limit 50
  let ms :=
    if isNumericQuery then scanLegacyZip queryLower isCanada maxLimit data []
    else if jsIncludes queryLower "," then
      if commaCityPart queryLower ≠ "" ∧ commaStatePart queryLower ≠ "" then
        scanLegacyCityState (commaCityPart queryLower) (commaStatePart queryLower)
          maxLimit data [] []
      else []
    else scanLegacyCity queryLower maxLimit data [] []
  sortMatchesLegacy ms

/-- The mode selected by the branch structure of
`performAutocompleteOptimized` (also `performUSAutocompleteQuery` and the
legacy engine for the non-Mexico modes): the leading-digit test on the raw
query picks the postal branch, else Mexico picks the state branch, else the
city branch. -/
def autocompleteMode (query : String) (isMexico : Bool) : String :=
  if jsTestDigitStart query then "zipcode"
  else if isMexico then "state"
  else "city"

/-- The timeout/exception wrapper `performAutocompleteWithTimeout`: the inner
synchronous search either returns a result list or throws; the promise always
resolves — with the results on success and with the empty list on an
exception (the wall-clock timeout path likewise resolves the empty list). -/
def performAutocompleteWithTimeout (outcome : Except String (List MatchResult)) :
    List MatchResult :=
  match outcome with
  | .ok results => results
  | .error _ => []

/-- The dedup identity the engines enforce via `seenItems`, read off the
result `type`: the code value for postal results, the lowercased state name
for Mexico state results, the lowercased city-comma-state key for city
results. -/
def keyOf (r : MatchResult) : String :=
  if r.type = "zipcode" then r.zipcode
  else if r.type = "state" then jsToLower r.state
  else jsToLower r.city ++ "," ++ jsToLower r.state

/-- The claimed two-tier result order for a normalized query `q`: a result
whose display starts (case-insensitively) with `q` precedes one whose display
does not, and otherwise displays are in alphabetical order. -/
def TwoTierOrdered (q : String) (a b : MatchResult) : Prop :=
  (jsStartsWith (jsToLower a.display) q = true ∧
    jsStartsWith (jsToLower b.display) q = false) ∨
  (jsStartsWith (jsToLower a.display) q = jsStartsWith (jsToLower b.display) q ∧
    jsLocaleCompareLe a.display b.display = true)

instance (q : String) (a b : MatchResult) : Decidable (TwoTierOrdered q a b) := by
  unfold TwoTierOrdered
  infer_instance

/-! ### Helper lemmas: the seen-set and dedup keys -/

theorem memStr_append_left (l l' : List String) (x : String)
    (h : memStr l x = true) : memStr (l ++ l') x = true := by
  induction l with
  | nil => simp [memStr] at h
  | cons s rest ih =>
    simp only [List.cons_append, memStr] at h ⊢
    by_cases hs : s = x
    · simp [hs]
    · simp only [if_neg hs] at h ⊢
      exact ih h

theorem memStr_append_self (l : List String) (x : String) :
    memStr (l ++ [x]) x = true := by
  induction l with
  | nil => simp [memStr]
  | cons s rest ih =>
    simp only [List.cons_append, memStr]
    by_cases hs : s = x
    · simp [hs]
    · simp only [if_neg hs]
      exact ih

theorem keyOf_zip (r : MatchResult) (h : r.type = "zipcode") :
    keyOf r = r.zipcode := by
  unfold keyOf
  rw [h]
  rfl

theorem keyOf_state (r : MatchResult) (h : r.type = "state") :
    keyOf r = jsToLower r.state := by
  unfold keyOf
  rw [h]
  rfl

theorem keyOf_city (r : MatchResult) (h : r.type = "city") :
    keyOf r = jsToLower r.city ++ "," ++ jsToLower r.state := by
  unfold keyOf
  rw [h]
  rfl

/-- One step of the optimized scan either leaves the accumulators unchanged
or pushes exactly one result, whose dedup key was unseen, together with that
key; the pushed result carries the type of the active branch. -/
theorem processItemOptimized_step (ql : String) (isNum isCanada isMexico : Bool)
    (item : PlaceRecord) (ms : List MatchResult) (seen : List String) :
    processItemOptimized ql isNum isCanada isMexico item ms seen = (ms, seen) ∨
      ∃ r : MatchResult,
        processItemOptimized ql isNum isCanada isMexico item ms seen =
          (ms ++ [r], seen ++ [keyOf r]) ∧
        memStr seen (keyOf r) = false ∧
        r.type = (if isNum then "zipcode" else if isMexico then "state" else "city") := by
  unfold processItemOptimized
  by_cases hn : isNum = true
  · simp only [if_pos hn]
    by_cases hz : jsStartsWith (jsToLower item.zipcode) ql = true
    · simp only [if_pos hz]
      by_cases hm : memStr seen item.zipcode = true
      · simp only [if_pos hm]
        exact Or.inl (by trivial)
      · simp only [if_neg hm]
        refine Or.inr ⟨mkZipResultOptimized isCanada isMexico item, rfl, ?_, rfl⟩
        exact Bool.not_eq_true _ ▸ hm
    · simp only [if_neg hz]
      exact Or.inl (by trivial)
  · simp only [if_neg hn]
    by_cases hx : isMexico = true
    · simp only [if_pos hx]
      by_cases hc : (mxStateMatches ql item && !memStr seen (jsToLower item.state)) = true
      · simp only [if_pos hc]
        refine Or.inr ⟨mkStateResult item, rfl, ?_, rfl⟩
        have := (Bool.and_eq_true _ _).mp hc
        simpa using this.2
      · simp only [if_neg hc]
        exact Or.inl (by trivial)
    · simp only [if_pos hn, if_neg hx]
      by_cases hcm : jsIncludes ql "," = true
      · simp only [if_pos hcm]
        by_cases hp : commaCityPart ql ≠ "" ∧ commaStatePart ql ≠ ""
        · simp only [if_pos hp]
          by_cases hc : (jsIncludes (jsToLower item.place) (commaCityPart ql) &&
              jsStartsWith (jsToLower item.state_code) (commaStatePart ql) &&
              !memStr seen (cityKeyOf item)) = true
          · simp only [if_pos hc]
            refine Or.inr ⟨mkCityResult item, rfl, ?_, rfl⟩
            have := (Bool.and_eq_true _ _).mp hc
            simpa using this.2
          · simp only [if_neg hc]
            exact Or.inl (by trivial)
        · simp only [if_neg hp]
          exact Or.inl (by trivial)
      · simp only [if_neg hcm]
        by_cases hc : (jsStartsWith (jsToLower item.place) ql &&
            !memStr seen (cityKeyOf item)) = true
        · simp only [if_pos hc]
          refine Or.inr ⟨mkCityResult item, rfl, ?_, rfl⟩
          have := (Bool.and_eq_true _ _).mp hc
          simpa using this.2
        · simp only [if_neg hc]
          exact Or.inl (by trivial)

/-! ### Scan-loop invariants -/

theorem scanOptimized_length_le (ql : String) (isNum isCanada isMexico : Bool)
    (maxLimit : Nat) (l : List PlaceRecord) :
    ∀ (ms : List MatchResult) (seen : List String),
      ms.length ≤ maxLimit →
      (scanOptimized ql isNum isCanada isMexico maxLimit l ms seen).length ≤ maxLimit := by
  induction l with
  | nil => intro ms seen h; simpa [scanOptimized] using h
  | cons item rest ih =>
    intro ms seen h
    by_cases hg : maxLimit ≤ ms.length
    · simp only [scanOptimized, if_pos hg]
      exact h
    · simp only [scanOptimized, if_neg hg]
      rcases processItemOptimized_step ql isNum isCanada isMexico item ms seen with
        hstep | ⟨r, hstep, _, _⟩
      · rw [hstep]
        exact ih ms seen h
      · rw [hstep]
        apply ih
        simp only [List.length_append, List.length_cons, List.length_nil]
        omega

theorem scanOptimized_keys (ql : String) (isNum isCanada isMexico : Bool)
    (maxLimit : Nat) (l : List PlaceRecord) :
    ∀ (ms : List MatchResult) (seen : List String),
      (∀ r ∈ ms, memStr seen (keyOf r) = true) →
      ms.Pairwise (fun a b => keyOf a ≠ keyOf b) →
      (scanOptimized ql isNum isCanada isMexico maxLimit l ms seen).Pairwise
        (fun a b => keyOf a ≠ keyOf b) := by
  induction l with
  | nil => intro ms seen _ hp; simpa [scanOptimized] using hp
  | cons item rest ih =>
    intro ms seen hseen hp
    by_cases hg : maxLimit ≤ ms.length
    · simp only [scanOptimized, if_pos hg]
      exact hp
    · simp only [scanOptimized, if_neg hg]
      rcases processItemOptimized_step ql isNum isCanada isMexico item ms seen with
        hstep | ⟨r, hstep, hmem, _⟩
      · rw [hstep]
        exact ih ms seen hseen hp
      · rw [hstep]
        apply ih
        · intro x hx
          rcases List.mem_append.mp hx with hx | hx
          · exact memStr_append_left _ _ _ (hseen x hx)
          · obtain rfl := List.mem_singleton.mp hx
            exact memStr_append_self _ _
        · refine List.pairwise_append.mpr ⟨hp, by simp, ?_⟩
          intro a ha b hb
          obtain rfl := List.mem_singleton.mp hb
          intro hEq
          have h1 := hseen a ha
          rw [hEq] at h1
          rw [h1] at hmem
          exact absurd hmem (by decide)

theorem scanOptimized_types (ql : String) (isNum isCanada isMexico : Bool)
    (maxLimit : Nat) (l : List PlaceRecord) :
    ∀ (ms : List MatchResult) (seen : List String),
      (∀ x ∈ ms, x.type = (if isNum then "zipcode" else if isMexico then "state" else "city")) →
      ∀ r ∈ scanOptimized ql isNum isCanada isMexico maxLimit l ms seen,
        r.type = (if isNum then "zipcode" else if isMexico then "state" else "city") := by
  induction l with
  | nil =>
    intro ms seen hms r hr
    exact hms r (by simpa [scanOptimized] using hr)
  | cons item rest ih =>
    intro ms seen hms r hr
    by_cases hg : maxLimit ≤ ms.length
    · simp only [scanOptimized, if_pos hg] at hr
      exact hms r hr
    · simp only [scanOptimized, if_neg hg] at hr
      rcases processItemOptimized_step ql isNum isCanada isMexico item ms seen with
        hstep | ⟨r0, hstep, _, htype⟩
      · rw [hstep] at hr
        exact ih ms seen hms r hr
      · rw [hstep] at hr
        refine ih _ _ ?_ r hr
        intro x hx
        rcases List.mem_append.mp hx with hx | hx
        · exact hms x hx
        · obtain rfl := List.mem_singleton.mp hx
          exact htype

theorem scanLegacyCityWith_keys (p : PlaceRecord → Bool) (maxLimit : Nat)
    (l : List PlaceRecord) :
    ∀ (ms : List MatchResult) (seen : List String),
      (∀ r ∈ ms, memStr seen (keyOf r) = true) →
      ms.Pairwise (fun a b => keyOf a ≠ keyOf b) →
      (scanLegacyCityWith p maxLimit l ms seen).Pairwise
        (fun a b => keyOf a ≠ keyOf b) := by
  induction l with
  | nil => intro ms seen _ hp; simpa [scanLegacyCityWith] using hp
  | cons item rest ih =>
    intro ms seen hseen hp
    by_cases hg : maxLimit ≤ ms.length
    · simp only [scanLegacyCityWith, if_pos hg]
      exact hp
    · by_cases hc : (p item && !memStr seen (cityKeyOf item)) = true
      · simp only [scanLegacyCityWith, if_neg hg, if_pos hc]
        have hmem : memStr seen (cityKeyOf item) = false := by
          have := ((Bool.and_eq_true _ _).mp hc).2
          simpa using this
        apply ih
        · intro x hx
          rcases List.mem_append.mp hx with hx | hx
          · exact memStr_append_left _ _ _ (hseen x hx)
          · obtain rfl := List.mem_singleton.mp hx
            exact memStr_append_self _ _
        · refine List.pairwise_append.mpr ⟨hp, by simp, ?_⟩
          intro a ha b hb
          obtain rfl := List.mem_singleton.mp hb
          intro hEq
          have h1 := hseen a ha
          have hk : keyOf (mkCityResult item) = cityKeyOf item := rfl
          rw [hEq, hk] at h1
          rw [h1] at hmem
          exact absurd hmem (by decide)
      · simp only [scanLegacyCityWith, if_neg hg, if_neg hc]
        exact ih ms seen hseen hp

theorem scanLegacyCityWith_types (p : PlaceRecord → Bool) (maxLimit : Nat)
    (l : List PlaceRecord) :
    ∀ (ms : List MatchResult) (seen : List String),
      (∀ x ∈ ms, x.type = "city") →
      ∀ r ∈ scanLegacyCityWith p maxLimit l ms seen, r.type = "city" := by
  induction l with
  | nil =>
    intro ms seen hms r hr
    exact hms r (by simpa [scanLegacyCityWith] using hr)
  | cons item rest ih =>
    intro ms seen hms r hr
    by_cases hg : maxLimit ≤ ms.length
    · simp only [scanLegacyCityWith, if_pos hg] at hr
      exact hms r hr
    · by_cases hc : (p item && !memStr seen (cityKeyOf item)) = true
      · simp only [scanLegacyCityWith, if_neg hg, if_pos hc] at hr
        refine ih _ _ ?_ r hr
        intro x hx
        rcases List.mem_append.mp hx with hx | hx
        · exact hms x hx
        · obtain rfl := List.mem_singleton.mp hx
          rfl
      · simp only [scanLegacyCityWith, if_neg hg, if_neg hc] at hr
        exact ih ms seen hms r hr

theorem scanLegacyZip_types (ql : String) (isCanada : Bool) (maxLimit : Nat)
    (l : List PlaceRecord) :
    ∀ ms : List MatchResult,
      (∀ x ∈ ms, x.type = "zipcode") →
      ∀ r ∈ scanLegacyZip ql isCanada maxLimit l ms, r.type = "zipcode" := by
  induction l with
  | nil =>
    intro ms hms r hr
    exact hms r (by simpa [scanLegacyZip] using hr)
  | cons item rest ih =>
    intro ms hms r hr
    by_cases hg : maxLimit ≤ ms.length
    · simp only [scanLegacyZip, if_pos hg] at hr
      exact hms r hr
    · by_cases hz : jsStartsWith (jsToLower item.zipcode) ql = true
      · simp only [scanLegacyZip, if_neg hg, if_pos hz] at hr
        refine ih _ ?_ r hr
        intro x hx
        rcases List.mem_append.mp hx with hx | hx
        · exact hms x hx
        · obtain rfl := List.mem_singleton.mp hx
          rfl
      · simp only [scanLegacyZip, if_neg hg, if_neg hz] at hr
        exact ih ms hms r hr

/-! ### Ordering lemmas for the sort comparators -/

theorem charsLe_total : ∀ a b : List Char, charsLe a b = true ∨ charsLe b a = true
  | [], _ => Or.inl rfl
  | _ :: _, [] => Or.inr rfl
  | a :: as, b :: bs => by
    rcases lt_trichotomy a b with h | h | h
    · left
      simp [charsLe, h]
    · subst h
      rcases charsLe_total as bs with ih | ih
      · left
        simp [charsLe, lt_irrefl, ih]
      · right
        simp [charsLe, lt_irrefl, ih]
    · right
      simp [charsLe, h]

theorem charsLe_trans : ∀ a b c : List Char,
    charsLe a b = true → charsLe b c = true → charsLe a c = true
  | [], _, _, _, _ => rfl
  | _ :: _, [], _, h1, _ => by simp [charsLe] at h1
  | _ :: _, _ :: _, [], _, h2 => by simp [charsLe] at h2
  | a :: as, b :: bs, c :: cs, h1, h2 => by
    simp only [charsLe] at h1 h2 ⊢
    rcases lt_trichotomy a b with hab | hab | hab
    · rcases lt_trichotomy b c with hbc | hbc | hbc
      · simp [lt_trans hab hbc]
      · subst hbc
        simp [hab]
      · rw [if_neg (lt_asymm hbc), if_pos hbc] at h2
        exact absurd h2 (by decide)
    · subst hab
      rcases lt_trichotomy a c with hac | hac | hac
      · simp [hac]
      · subst hac
        rw [if_neg (lt_irrefl a), if_neg (lt_irrefl a)] at h1 h2 ⊢
        exact charsLe_trans as bs cs h1 h2
      · rw [if_neg (lt_asymm hac), if_pos hac] at h2
        exact absurd h2 (by decide)
    · rw [if_neg (lt_asymm hab), if_pos hab] at h1
      exact absurd h1 (by decide)

theorem jsLocaleCompareLe_total (a b : String) :
    jsLocaleCompareLe a b = true ∨ jsLocaleCompareLe b a = true :=
  charsLe_total _ _

theorem jsLocaleCompareLe_trans (a b c : String)
    (h1 : jsLocaleCompareLe a b = true) (h2 : jsLocaleCompareLe b c = true) :
    jsLocaleCompareLe a c = true :=
  charsLe_trans _ _ _ h1 h2

theorem optimizedSortLe_iff (ql : String) (a b : MatchResult) :
    optimizedSortLe ql a b = true ↔ TwoTierOrdered ql a b := by
  unfold optimizedSortLe TwoTierOrdered
  cases ha : jsStartsWith (jsToLower a.display) ql <;>
    cases hb : jsStartsWith (jsToLower b.display) ql <;>
    simp

instance (ql : String) :
    IsTrans MatchResult (fun a b => optimizedSortLe ql a b = true) where
  trans a b c hab hbc := by
    unfold optimizedSortLe at hab hbc ⊢
    cases ha : jsStartsWith (jsToLower a.display) ql <;>
      cases hb : jsStartsWith (jsToLower b.display) ql <;>
      cases hc : jsStartsWith (jsToLower c.display) ql <;>
      simp [ha, hb, hc] at hab hbc ⊢ <;>
      exact jsLocaleCompareLe_trans _ _ _ hab hbc

instance (ql : String) :
    IsTotal MatchResult (fun a b => optimizedSortLe ql a b = true) where
  total a b := by
    unfold optimizedSortLe
    cases ha : jsStartsWith (jsToLower a.display) ql <;>
      cases hb : jsStartsWith (jsToLower b.display) ql <;>
      simp [ha, hb] <;>
      exact jsLocaleCompareLe_total _ _

theorem pairwise_sortMatchesOptimized {R : MatchResult → MatchResult → Prop}
    (hs : ∀ {x y : MatchResult}, R x y → R y x) (ql : String)
    (ms : List MatchResult) (h : ms.Pairwise R) :
    (sortMatchesOptimized ql ms).Pairwise R :=
  ((List.perm_insertionSort _ ms).pairwise_iff hs).mpr h

theorem pairwise_sortMatchesLegacy {R : MatchResult → MatchResult → Prop}
    (hs : ∀ {x y : MatchResult}, R x y → R y x)
    (ms : List MatchResult) (h : ms.Pairwise R) :
    (sortMatchesLegacy ms).Pairwise R :=
  ((List.perm_insertionSort _ ms).pairwise_iff hs).mpr h

theorem mem_sortMatchesOptimized (ql : String) (ms : List MatchResult)
    (r : MatchResult) : r ∈ sortMatchesOptimized ql ms ↔ r ∈ ms :=
  (List.perm_insertionSort _ ms).mem_iff

theorem mem_sortMatchesLegacy (ms : List MatchResult) (r : MatchResult) :
    r ∈ sortMatchesLegacy ms ↔ r ∈ ms :=
  (List.perm_insertionSort _ ms).mem_iff

theorem length_sortMatchesOptimized (ql : String) (ms : List MatchResult) :
    (sortMatchesOptimized ql ms).length = ms.length :=
  (List.perm_insertionSort _ ms).length_eq

theorem sorted_sortMatchesOptimized (ql : String) (ms : List MatchResult) :
    (sortMatchesOptimized ql ms).Sorted (fun a b => optimizedSortLe ql a b = true) :=
  List.sorted_insertionSort _ ms

instance :
    IsTrans MatchResult (fun a b => jsLocaleCompareLe a.display b.display = true) where
  trans _ _ _ hab hbc := jsLocaleCompareLe_trans _ _ _ hab hbc

instance :
    IsTotal MatchResult (fun a b => jsLocaleCompareLe a.display b.display = true) where
  total a b := jsLocaleCompareLe_total a.display b.display

theorem sorted_sortMatchesLegacy (ms : List MatchResult) :
    (sortMatchesLegacy ms).Sorted
      (fun a b => jsLocaleCompareLe a.display b.display = true) :=
  List.sorted_insertionSort _ ms

/-! ### Characterizations of the matching primitives -/

theorem charsStartsWith_iff : ∀ s p : List Char,
    charsStartsWith s p = true ↔ ∃ t, s = p ++ t
  | s, [] => ⟨fun _ => ⟨s, by simp⟩, fun _ => by cases s <;> rfl⟩
  | [], _ :: _ => by simp [charsStartsWith]
  | a :: s, b :: p => by
    simp only [charsStartsWith, Bool.and_eq_true, beq_iff_eq]
    constructor
    · rintro ⟨rfl, h⟩
      obtain ⟨t, rfl⟩ := (charsStartsWith_iff s p).mp h
      exact ⟨t, rfl⟩
    · rintro ⟨t, ht⟩
      simp only [List.cons_append] at ht
      injection ht with h1 h2
      exact ⟨h1, (charsStartsWith_iff s p).mpr ⟨t, h2⟩⟩

theorem charsContains_iff : ∀ s sub : List Char,
    charsContains s sub = true ↔ ∃ l r, s = l ++ sub ++ r
  | [], sub => by
    simp only [charsContains]
    rw [charsStartsWith_iff]
    constructor
    · rintro ⟨t, ht⟩
      exact ⟨[], t, by simpa using ht⟩
    · rintro ⟨l, r, h⟩
      have h' : l ++ sub ++ r = [] := h.symm
      simp only [List.append_eq_nil] at h'
      exact ⟨r, by simp [h'.1.2, h'.2]⟩
  | x :: s, sub => by
    simp only [charsContains, Bool.or_eq_true]
    rw [charsStartsWith_iff, charsContains_iff s sub]
    constructor
    · rintro (⟨t, ht⟩ | ⟨l, r, hlr⟩)
      · exact ⟨[], t, by simpa using ht⟩
      · exact ⟨x :: l, r, by simp [hlr]⟩
    · rintro ⟨l, r, h⟩
      cases l with
      | nil =>
        left
        exact ⟨r, by simpa using h⟩
      | cons y l2 =>
        right
        simp only [List.cons_append] at h
        injection h with h1 h2
        exact ⟨l2, r, h2⟩

theorem wordBoundaryGo_iff : ∀ qs ns : List String,
    wordBoundaryGo qs ns = true ↔
      (qs.length ≤ ns.length ∧ ∀ p ∈ qs.zip ns, jsStartsWith p.2 p.1 = true)
  | [], ns => by simp [wordBoundaryGo]
  | _ :: _, [] => by simp [wordBoundaryGo]
  | q :: qs, n :: ns => by
    simp only [wordBoundaryGo, Bool.and_eq_true, List.zip_cons_cons, List.length_cons,
      List.mem_cons]
    rw [wordBoundaryGo_iff qs ns]
    constructor
    · rintro ⟨h1, h2, h3⟩
      refine ⟨Nat.succ_le_succ h2, ?_⟩
      intro p hp
      rcases hp with rfl | hp
      · exact h1
      · exact h3 p hp
    · rintro ⟨h1, h2⟩
      exact ⟨h2 (q, n) (Or.inl rfl), Nat.le_of_succ_le_succ h1,
        fun p hp => h2 p (Or.inr hp)⟩

/-! ### Unfolding equations and small helpers for the engine bodies -/

theorem performAutocompleteOptimized_eq (data : List PlaceRecord) (query : String)
    (limit : Nat) (isCanada isMexico : Bool) :
    performAutocompleteOptimized data query limit isCanada isMexico =
      if (jsTrim (jsToLower query)).length < 2 then []
      else
        sortMatchesOptimized (jsTrim (jsToLower query))
          (scanOptimized (jsTrim (jsToLower query)) (jsTestDigitStart query) isCanada
            isMexico (min limit 25) (data.take 50000) [] []) := rfl

theorem performAutocomplete_eq (data : List PlaceRecord) (query : String)
    (limit : Nat) (isCanada : Bool) :
    performAutocomplete data query limit isCanada =
      sortMatchesLegacy
        (if jsTestDigitStart query then
          scanLegacyZip (jsTrim (jsToLower query)) isCanada (min limit 50) data []
        else if jsIncludes (jsTrim (jsToLower query)) "," then
          if commaCityPart (jsTrim (jsToLower query)) ≠ "" ∧
              commaStatePart (jsTrim (jsToLower query)) ≠ "" then
            scanLegacyCityState (commaCityPart (jsTrim (jsToLower query)))
              (commaStatePart (jsTrim (jsToLower query))) (min limit 50) data [] []
          else []
        else scanLegacyCity (jsTrim (jsToLower query)) (min limit 50) data [] []) := rfl

theorem pairwise_of_mem_left {R : MatchResult → MatchResult → Prop}
    {l : List MatchResult} (h : ∀ a ∈ l, ∀ b, R a b) : l.Pairwise R := by
  induction l with
  | nil => exact List.Pairwise.nil
  | cons x t ih =>
    refine List.Pairwise.cons (fun b _ => h x (by simp) b) (ih ?_)
    intro a ha b
    exact h a (by simp [ha]) b

/-! ### The claims -/

/-- C1: the spec describes a speculative city+region split for comma-free
queries ending in a 1-2 letter fragment, with union and fallback; the code
has no such split.  On the five Burlington records, the query
"burlington w" returns the empty list in both engines (the optimized engine
requires the whole string to be a prefix of the city name, the legacy engine
word-boundary-matches the whole string against the city name alone), instead
of the four documented W-state results; the "coos b" fallback half behaves
as described, but via plain city matching, not via a split-then-fallback. -/
theorem c1_burlington_w_code_behavior :
    performAutocompleteOptimized
      [⟨"98233", "Burlington", "WA", ""⟩, ⟨"53105", "Burlington", "WI", ""⟩,
       ⟨"26710", "Burlington", "WV", ""⟩, ⟨"82411", "Burlington", "WY", ""⟩,
       ⟨"05401", "Burlington", "VT", ""⟩] "burlington w" 10 false false = [] ∧
    performAutocomplete
      [⟨"98233", "Burlington", "WA", ""⟩, ⟨"53105", "Burlington", "WI", ""⟩,
       ⟨"26710", "Burlington", "WV", ""⟩, ⟨"82411", "Burlington", "WY", ""⟩,
       ⟨"05401", "Burlington", "VT", ""⟩] "burlington w" 10 false = [] ∧
    (performAutocompleteOptimized [⟨"97420", "Coos Bay", "OR", ""⟩] "coos b" 10
        false false).map (fun r => r.display) = ["Coos Bay, OR"] ∧
    (performAutocomplete [⟨"97420", "Coos Bay", "OR", ""⟩] "coos b" 10
        false).map (fun r => r.display) = ["Coos Bay, OR"] := by
  decide

/-- C2 counterexample: in the current optimized engine the word-boundary
characterization fails in both directions — "sou burl" word-boundary-matches
"South Burlington" yet yields no result (the engine uses a whole-string
prefix test), and the comma query "urling, v" yields "Burlington, VT"
although "urling" is not a word-boundary match of "Burlington" (the engine
uses a substring test for the comma city part). -/
theorem c2_counterexample :
    matchesWithWordBoundary (jsToLower "South Burlington") (jsToLower "sou burl") = true ∧
    performAutocompleteOptimized [⟨"05403", "South Burlington", "VT", ""⟩]
      "sou burl" 10 false false = [] ∧
    (performAutocompleteOptimized [⟨"05401", "Burlington", "VT", ""⟩]
        "urling, v" 10 false false).map (fun r => r.display) = ["Burlington, VT"] ∧
    matchesWithWordBoundary (jsToLower "Burlington") (jsToLower "urling") = false := by
  decide

/-- C2 amended: the word-boundary iff holds of `matchesWithWordBoundary`, the
city matcher of the legacy engine: a city name matches a query iff,
lowercasing and splitting both into whitespace-delimited words, the query has
no more words than the city name and each query word is a prefix of the city
word at the same position; the three spec examples evaluate as stated. -/
theorem c2_word_boundary_characterization :
    (∀ city query : String,
      matchesWithWordBoundary (jsToLower city) (jsToLower query) = true ↔
        ((splitWs (jsToLower query)).length ≤ (splitWs (jsToLower city)).length ∧
          ∀ p ∈ (splitWs (jsToLower query)).zip (splitWs (jsToLower city)),
            jsStartsWith p.2 p.1 = true)) ∧
    matchesWithWordBoundary "south burlington" "south bur" = true ∧
    matchesWithWordBoundary "south burlington" "bur sou" = false ∧
    matchesWithWordBoundary "coos bay" "coos b" = true := by
  refine ⟨?_, by decide, by decide, by decide⟩
  intro city query
  exact wordBoundaryGo_iff _ _

/-- C4 counterexample: the legacy engine's postal branch has no dedup — on
two records sharing the zip code "05401" the query "0540" returns two
postal results with the same code. -/
theorem c4_counterexample :
    ¬ (performAutocomplete
        [⟨"05401", "Place A", "VT", ""⟩, ⟨"05401", "Place B", "VT", ""⟩]
        "0540" 10 false).Pairwise
      (fun a b => ¬(a.type = "zipcode" ∧ b.type = "zipcode" ∧
        a.zipcode = b.zipcode)) := by
  decide

/-- C5: the optimized engine never returns more than the minimum of the
requested limit and the absolute ceiling 25, for any data and query. -/
theorem c5_result_count_bounded (data : List PlaceRecord) (query : String)
    (limit : Nat) (isCanada isMexico : Bool) :
    (performAutocompleteOptimized data query limit isCanada isMexico).length ≤
      min limit 25 := by
  rw [performAutocompleteOptimized_eq]
  by_cases hshort : (jsTrim (jsToLower query)).length < 2
  · simp [hshort]
  · simp only [if_neg hshort]
    rw [length_sortMatchesOptimized]
    exact scanOptimized_length_le _ _ _ _ _ _ [] [] (by simp)

/-- C7: the optimized scan inspects at most the first 50000 records — the
engine computes the same result on the truncated data — and the
timeout/exception wrapper always resolves: the results on success, the empty
list on an error, never a propagated failure. -/
theorem c7_budget_and_no_timeout_error :
    (∀ (data : List PlaceRecord) (query : String) (limit : Nat)
      (isCanada isMexico : Bool),
      performAutocompleteOptimized data query limit isCanada isMexico =
        performAutocompleteOptimized (data.take 50000) query limit isCanada isMexico) ∧
    (∀ results : List MatchResult,
      performAutocompleteWithTimeout (Except.ok results) = results) ∧
    (∀ err : String, performAutocompleteWithTimeout (Except.error err) = []) := by
  refine ⟨?_, fun _ => rfl, fun _ => rfl⟩
  intro data query limit isCanada isMexico
  rw [performAutocompleteOptimized_eq, performAutocompleteOptimized_eq,
    List.take_take, Nat.min_self]

/-- C8 counterexample: the classifiers test the raw query, not the trimmed
one — " 0540" trims to a digit-leading string yet is classified as a city
query and returns no postal results, while "0540" does. -/
theorem c8_leading_whitespace_not_postal :
    jsTestDigitStart (jsTrim " 0540") = true ∧
    autocompleteMode " 0540" false = "city" ∧
    performAutocompleteOptimized [⟨"05401", "Burlington", "VT", ""⟩]
      " 0540" 10 false false = [] ∧
    (performAutocompleteOptimized [⟨"05401", "Burlington", "VT", ""⟩]
        "0540" 10 false false).map (fun r => r.type) = ["zipcode"] := by
  decide

/-- C6 counterexample, one violation per engine.  Optimized engine: for the
trailing-whitespace comma query "burl, a " neither returned display starts
with the original query, so the claimed order demands pure alphabetical
order, but the engine tiers by the trimmed query and returns "Burl, AA"
before "Aburl, AA".  Legacy engine: its sort is purely alphabetical with no
query-prefix tier, so even for the already lowercase, trimmed query
"burl, z" it returns the non-prefix display "Burl X, ZA" before the
prefix display "Burl, ZA", violating the two-tier order outright. -/
theorem c6_counterexample :
    ¬ List.Sorted (TwoTierOrdered (jsToLower "burl, a "))
      (performAutocompleteOptimized
        [⟨"1", "Burl", "AA", ""⟩, ⟨"2", "Aburl", "AA", ""⟩]
        "burl, a " 10 false false) ∧
    ¬ List.Sorted (TwoTierOrdered (jsTrim (jsToLower "burl, z")))
      (performAutocomplete
        [⟨"1", "Burl X", "ZA", ""⟩, ⟨"2", "Burl", "ZA", ""⟩]
        "burl, z" 10 false) := by
  decide

/-- C10 counterexample: the limit "-5" parses, is nonzero hence not replaced
by the default, and survives the upper clamp, so a parseable limit outside
1..25 is used as given. -/
theorem c10_counterexample :
    handlerLimit (some "-5") = -5 ∧ handlerCappedLimit (some "-5") = -5 ∧
    ¬((1 : Int) ≤ -5) := by
  decide

/-- C10 amended: an absent, zero, or unparseable limit falls back to the
default 10 and is then clamped by 25; any nonzero parseable limit (negative
ones included) is used as given before the upper clamp; and an engine call
at the defaulted limit 10 returns 10 results when 11 records match. -/
theorem c10_limit_defaulting :
    (∀ (s : String) (n : Int), jsParseInt (some s) = some n → n ≠ 0 →
        handlerLimit (some s) = n ∧ handlerCappedLimit (some s) = min n 25) ∧
    handlerCappedLimit none = 10 ∧
    handlerCappedLimit (some "0") = 10 ∧
    handlerCappedLimit (some "abc") = 10 ∧
    handlerCappedLimit (some "30") = 25 ∧
    (performAutocompleteOptimized
        [⟨"z01", "Burlington", "S01", ""⟩, ⟨"z02", "Burlington", "S02", ""⟩,
         ⟨"z03", "Burlington", "S03", ""⟩, ⟨"z04", "Burlington", "S04", ""⟩,
         ⟨"z05", "Burlington", "S05", ""⟩, ⟨"z06", "Burlington", "S06", ""⟩,
         ⟨"z07", "Burlington", "S07", ""⟩, ⟨"z08", "Burlington", "S08", ""⟩,
         ⟨"z09", "Burlington", "S09", ""⟩, ⟨"z10", "Burlington", "S10", ""⟩,
         ⟨"z11", "Burlington", "S11", ""⟩]
        "burling" 10 false false).length = 10 := by
  refine ⟨?_, by decide, by decide, by decide, by decide, by decide⟩
  intro s n hparse hn
  have hl : handlerLimit (some s) = n := by
    unfold handlerLimit
    rw [hparse]
    cases n with
    | ofNat k =>
      cases k with
      | zero => exact absurd rfl hn
      | succ m => rfl
    | negSucc k => rfl
  refine ⟨hl, ?_⟩
  unfold handlerCappedLimit
  rw [hl]

/-- C10 witness: the parseable nonzero limit "7" instantiates the amended
defaulting theorem. -/
theorem c10_witness :
    (jsParseInt (some "7") = some 7 ∧ (7 : Int) ≠ 0) ∧
    handlerLimit (some "7") = 7 ∧ handlerCappedLimit (some "7") = min 7 25 := by
  refine ⟨⟨by decide, by decide⟩, ?_, ?_⟩
  · exact (c10_limit_defaulting.1 "7" 7 (by decide) (by decide)).1
  · exact (c10_limit_defaulting.1 "7" 7 (by decide) (by decide)).2

/-- C3: in any single response of either engine, no two city results agree on
both the lowercased city name and the lowercased region code — the
`seenItems`/`seenCities` key set makes the city keys pairwise distinct, and
the final sort only permutes. -/
theorem c3_city_dedup (data : List PlaceRecord) (query : String) (limit : Nat)
    (isCanada isMexico : Bool) :
    (performAutocompleteOptimized data query limit isCanada isMexico).Pairwise
      (fun a b => ¬(a.type = "city" ∧ b.type = "city" ∧
        jsToLower a.city = jsToLower b.city ∧ jsToLower a.state = jsToLower b.state)) ∧
    (performAutocomplete data query limit isCanada).Pairwise
      (fun a b => ¬(a.type = "city" ∧ b.type = "city" ∧
        jsToLower a.city = jsToLower b.city ∧ jsToLower a.state = jsToLower b.state)) := by
  have hsymm : ∀ {x y : MatchResult},
      (¬(x.type = "city" ∧ y.type = "city" ∧ jsToLower x.city = jsToLower y.city ∧
        jsToLower x.state = jsToLower y.state)) →
      ¬(y.type = "city" ∧ x.type = "city" ∧ jsToLower y.city = jsToLower x.city ∧
        jsToLower y.state = jsToLower x.state) := by
    intro x y h hcon
    exact h ⟨hcon.2.1, hcon.1, hcon.2.2.1.symm, hcon.2.2.2.symm⟩
  have himp : ∀ {a b : MatchResult}, keyOf a ≠ keyOf b →
      ¬(a.type = "city" ∧ b.type = "city" ∧ jsToLower a.city = jsToLower b.city ∧
        jsToLower a.state = jsToLower b.state) := by
    intro a b hne hcon
    exact hne (by rw [keyOf_city a hcon.1, keyOf_city b hcon.2.1, hcon.2.2.1, hcon.2.2.2])
  constructor
  · rw [performAutocompleteOptimized_eq]
    by_cases hshort : (jsTrim (jsToLower query)).length < 2
    · simp [hshort]
    · simp only [if_neg hshort]
      apply pairwise_sortMatchesOptimized hsymm
      exact (scanOptimized_keys _ _ _ _ _ _ [] [] (by simp) (by simp)).imp himp
  · rw [performAutocomplete_eq]
    apply pairwise_sortMatchesLegacy hsymm
    by_cases hn : jsTestDigitStart query = true
    · simp only [if_pos hn]
      apply pairwise_of_mem_left
      intro a ha b hcon
      have hz := scanLegacyZip_types _ _ _ _ [] (by simp) a ha
      rw [hcon.1] at hz
      exact absurd hz (by decide)
    · simp only [if_neg hn]
      by_cases hcm : jsIncludes (jsTrim (jsToLower query)) "," = true
      · simp only [if_pos hcm]
        by_cases hparts : commaCityPart (jsTrim (jsToLower query)) ≠ "" ∧
            commaStatePart (jsTrim (jsToLower query)) ≠ ""
        · simp only [if_pos hparts]
          exact (scanLegacyCityWith_keys _ _ _ [] [] (by simp) (by simp)).imp himp
        · simp only [if_neg hparts]
          exact List.Pairwise.nil
      · simp only [if_neg hcm]
        exact (scanLegacyCityWith_keys _ _ _ [] [] (by simp) (by simp)).imp himp

/-- C4 amended: the optimized engine returns at most one postal result per
distinct code — `seenItems` keys postal results by the code — and the first
record encountered with a given code supplies the display fields (on two
records sharing the code "05401" the single result carries the first
record's city); the legacy engine's postal branch, by contrast, does not
deduplicate (see the counterexample). -/
theorem c4_optimized_zip_dedup :
    (∀ (data : List PlaceRecord) (query : String) (limit : Nat)
      (isCanada isMexico : Bool),
      (performAutocompleteOptimized data query limit isCanada isMexico).Pairwise
        (fun a b => ¬(a.type = "zipcode" ∧ b.type = "zipcode" ∧
          a.zipcode = b.zipcode))) ∧
    (performAutocompleteOptimized
        [⟨"05401", "A", "VT", ""⟩, ⟨"05401", "B", "VT", ""⟩]
        "0540" 10 false false).map (fun r => r.city) = ["A"] := by
  refine ⟨?_, by decide⟩
  intro data query limit isCanada isMexico
  have hsymm : ∀ {x y : MatchResult},
      (¬(x.type = "zipcode" ∧ y.type = "zipcode" ∧ x.zipcode = y.zipcode)) →
      ¬(y.type = "zipcode" ∧ x.type = "zipcode" ∧ y.zipcode = x.zipcode) := by
    intro x y h hcon
    exact h ⟨hcon.2.1, hcon.1, hcon.2.2.symm⟩
  have himp : ∀ {a b : MatchResult}, keyOf a ≠ keyOf b →
      ¬(a.type = "zipcode" ∧ b.type = "zipcode" ∧ a.zipcode = b.zipcode) := by
    intro a b hne hcon
    exact hne (by rw [keyOf_zip a hcon.1, keyOf_zip b hcon.2.1, hcon.2.2])
  rw [performAutocompleteOptimized_eq]
  by_cases hshort : (jsTrim (jsToLower query)).length < 2
  · simp [hshort]
  · simp only [if_neg hshort]
    apply pairwise_sortMatchesOptimized hsymm
    exact (scanOptimized_keys _ _ _ _ _ _ [] [] (by simp) (by simp)).imp himp

/-- C6 amended: the two engines sort differently.  Every optimized-engine
result list is two-tier sorted with respect to the *normalized* (lowercased,
trimmed) query: results whose display starts with it precede those whose
display does not, and displays are otherwise in (model) alphabetical order.
The legacy engine applies no query-prefix tier at all: its result lists are
sorted purely alphabetically by display (and therefore violate the two-tier
order even for normalized queries — see the counterexample). -/
theorem c6_two_tier_sorted :
    (∀ (data : List PlaceRecord) (query : String) (limit : Nat)
      (isCanada isMexico : Bool),
      List.Sorted (TwoTierOrdered (jsTrim (jsToLower query)))
        (performAutocompleteOptimized data query limit isCanada isMexico)) ∧
    (∀ (data : List PlaceRecord) (query : String) (limit : Nat) (isCanada : Bool),
      List.Sorted (fun a b => jsLocaleCompareLe a.display b.display = true)
        (performAutocomplete data query limit isCanada)) := by
  constructor
  · intro data query limit isCanada isMexico
    rw [performAutocompleteOptimized_eq]
    by_cases hshort : (jsTrim (jsToLower query)).length < 2
    · simp only [if_pos hshort]
      exact List.sorted_nil
    · simp only [if_neg hshort]
      exact List.Pairwise.imp (fun hab => (optimizedSortLe_iff _ _ _).mp hab)
        (sorted_sortMatchesOptimized (jsTrim (jsToLower query)) _)
  · intro data query limit isCanada
    rw [performAutocomplete_eq]
    exact sorted_sortMatchesLegacy _

/-- C8 amended: every result's kind equals the mode selected from the *raw*
query — postal exactly when the untrimmed query starts with a digit (so a
leading-whitespace digit query is classified as a city query), with the
Mexico state mode and the city mode following; the Canadian classifier also
accepts a raw letter-digit start. -/
theorem c8_raw_query_classification :
    (∀ (data : List PlaceRecord) (query : String) (limit : Nat)
      (isCanada isMexico : Bool) (r : MatchResult),
      r ∈ performAutocompleteOptimized data query limit isCanada isMexico →
        r.type = autocompleteMode query isMexico) ∧
    (∀ (query : String) (isMexico : Bool),
      autocompleteMode query isMexico = "zipcode" ↔
        ∃ c cs, query.data = c :: cs ∧ c.isDigit = true) ∧
    (∀ query : String,
      caIsPostalCodeQuery query = true ↔
        ((∃ c cs, query.data = c :: cs ∧ c.isDigit = true) ∨
          (∃ a b cs, query.data = a :: b :: cs ∧ isAsciiLetter a = true ∧
            b.isDigit = true))) := by
  refine ⟨?_, ?_, ?_⟩
  · intro data query limit isCanada isMexico r hr
    rw [performAutocompleteOptimized_eq] at hr
    by_cases hshort : (jsTrim (jsToLower query)).length < 2
    · rw [if_pos hshort] at hr
      exact absurd hr (List.not_mem_nil r)
    · rw [if_neg hshort, mem_sortMatchesOptimized] at hr
      exact scanOptimized_types _ _ _ _ _ _ [] [] (by simp) r hr
  · intro query isMexico
    constructor
    · intro h
      by_cases hd : jsTestDigitStart query = true
      · unfold jsTestDigitStart at hd
        cases hq : query.data with
        | nil =>
          rw [hq] at hd
          exact absurd hd (by decide)
        | cons c cs =>
          rw [hq] at hd
          exact ⟨c, cs, rfl, hd⟩
      · unfold autocompleteMode at h
        rw [if_neg hd] at h
        by_cases hm : isMexico = true
        · rw [if_pos hm] at h
          exact absurd h (by decide)
        · rw [if_neg hm] at h
          exact absurd h (by decide)
    · rintro ⟨c, cs, hq, hc⟩
      have hd : jsTestDigitStart query = true := by
        unfold jsTestDigitStart
        rw [hq]
        exact hc
      unfold autocompleteMode
      rw [if_pos hd]
  · intro query
    constructor
    · intro h
      unfold caIsPostalCodeQuery at h
      rcases (Bool.or_eq_true _ _).mp h with h1 | h1
      · cases hq : query.data with
        | nil =>
          rw [hq] at h1
          exact absurd h1 (by decide)
        | cons a rest =>
          cases rest with
          | nil =>
            rw [hq] at h1
            exact absurd h1 Bool.false_ne_true
          | cons b cs =>
            rw [hq] at h1
            have hab := (Bool.and_eq_true _ _).mp h1
            exact Or.inr ⟨a, b, cs, rfl, hab.1, hab.2⟩
      · unfold jsTestDigitStart at h1
        cases hq : query.data with
        | nil =>
          rw [hq] at h1
          exact absurd h1 (by decide)
        | cons c cs =>
          rw [hq] at h1
          exact Or.inl ⟨c, cs, rfl, h1⟩
    · rintro (⟨c, cs, hq, hc⟩ | ⟨a, b, cs, hq, ha, hb⟩)
      · unfold caIsPostalCodeQuery
        refine (Bool.or_eq_true _ _).mpr (Or.inr ?_)
        unfold jsTestDigitStart
        rw [hq]
        exact hc
      · unfold caIsPostalCodeQuery
        refine (Bool.or_eq_true _ _).mpr (Or.inl ?_)
        rw [hq]
        simp [ha, hb]

/-- C8 witness: on one Burlington record, the postal query "0540" produces
the postal result, and the amended classification theorem applied at that
membership gives its kind. -/
theorem c8_witness :
    (⟨"zipcode", "05401 - Burlington, VT", "05401", "Burlington", "VT",
        "05401", ""⟩ : MatchResult) ∈
      performAutocompleteOptimized [⟨"05401", "Burlington", "VT", ""⟩]
        "0540" 10 false false ∧
    (⟨"zipcode", "05401 - Burlington, VT", "05401", "Burlington", "VT",
        "05401", ""⟩ : MatchResult).type = autocompleteMode "0540" false :=
  ⟨by decide,
    c8_raw_query_classification.1 [⟨"05401", "Burlington", "VT", ""⟩]
      "0540" 10 false false _ (by decide)⟩

/-- C9: the Mexico state branch matches a record exactly when the lowercased
state name contains the query substring anywhere ("calient" matches
"Aguascalientes" though it is not a prefix), and one invocation returns at
most one state result per distinct (lowercased) state name. -/
theorem c9_mx_region_substring :
    (∀ (ql : String) (item : PlaceRecord),
      mxStateMatches ql item = true ↔
        ∃ l r : List Char, (jsToLower item.state).data = l ++ ql.data ++ r) ∧
    (mxStateMatches "calient" ⟨"20000", "", "AGU", "Aguascalientes"⟩ = true ∧
      jsStartsWith (jsToLower "Aguascalientes") "calient" = false) ∧
    (∀ (data : List PlaceRecord) (query : String) (limit : Nat) (isCanada : Bool),
      (performAutocompleteOptimized data query limit isCanada true).Pairwise
        (fun a b => ¬(a.type = "state" ∧ b.type = "state" ∧
          jsToLower a.state = jsToLower b.state))) := by
  refine ⟨?_, by decide, ?_⟩
  · intro ql item
    exact charsContains_iff _ _
  · intro data query limit isCanada
    have hsymm : ∀ {x y : MatchResult},
        (¬(x.type = "state" ∧ y.type = "state" ∧ jsToLower x.state = jsToLower y.state)) →
        ¬(y.type = "state" ∧ x.type = "state" ∧ jsToLower y.state = jsToLower x.state) := by
      intro x y h hcon
      exact h ⟨hcon.2.1, hcon.1, hcon.2.2.symm⟩
    have himp : ∀ {a b : MatchResult}, keyOf a ≠ keyOf b →
        ¬(a.type = "state" ∧ b.type = "state" ∧ jsToLower a.state = jsToLower b.state) := by
      intro a b hne hcon
      exact hne (by rw [keyOf_state a hcon.1, keyOf_state b hcon.2.1, hcon.2.2])
    rw [performAutocompleteOptimized_eq]
    by_cases hshort : (jsTrim (jsToLower query)).length < 2
    · simp [hshort]
    · simp only [if_neg hshort]
      apply pairwise_sortMatchesOptimized hsymm
      exact (scanOptimized_keys _ _ _ _ _ _ [] [] (by simp) (by simp)).imp himp
